import Mathlib

/-!
Verification development for the content-personality analysis pipeline.

The definitions below are shallow embeddings, into Lean, of the core data
pipeline of the repository: the engagement loader, the join and composite
score engine (`src/charts/data_loader.py`), the outlier analyzer
(`src/charts/core_analyses/consistency_analysis.py`), the trend labelers
(`src/charts/advanced_analytics/evolution_tracking.py`,
`src/charts/core_analyses/behavioral_flags.py`), the archetype clustering
engine (`src/charts/core_analyses/content_archetypes.py`), and the risk
prediction engine (`src/charts/advanced_analytics/risk_assessment.py`).

Numeric modelling conventions:
* pandas/numpy floats are modelled as rationals `ℚ`; square roots, which
  can leave `ℚ`, are abstracted as an explicit function parameter
  `sqrtFn : ℚ → ℚ` wherever the code takes one (`std`, scaler scales);
  every property proved here is independent of the choice of `sqrtFn`.
* IEEE special values produced by pandas division are modelled by an
  explicit extended-value type `FVal` (finite / +inf / -inf / NaN), with
  division following IEEE 754 semantics (x/0 = ±inf for x ≠ 0, 0/0 = NaN).
* A CSV cell subject to `pd.to_numeric(..., errors='coerce')` is modelled
  as `Option ℚ` (`none` = non-numeric, coerced to NaN then `fillna(0)`).
-/

/-- Extended numeric value: a pandas float64 cell, which is either a finite
number (modelled exactly as a rational), an infinity, or NaN. -/
inductive FVal where
  | fin (q : ℚ)
  | pinf
  | ninf
  | nan
  deriving DecidableEq

namespace FVal

/-- IEEE-754 division as performed by numpy/pandas on float series (with
warnings suppressed, as `data_loader.py` does): finite/finite is exact
division when the denominator is nonzero; x/0 is +inf for x > 0, -inf for
x < 0 and NaN for x = 0. -/
def div : FVal → FVal → FVal
  | fin a, fin b =>
      if b ≠ 0 then fin (a / b)
      else if a > 0 then pinf
      else if a < 0 then ninf
      else nan
  | _, _ => nan

/-- Multiplication of an extended value by the positive literal 100, as in
`... / ... * 100` in `load_engagement_data`. -/
def mul100 : FVal → FVal
  | fin a => fin (a * 100)
  | pinf => pinf
  | ninf => ninf
  | nan => nan

end FVal

/-- One raw row of the engagement CSV after `pd.read_csv`: the post text and
the three count cells, each of which may fail numeric coercion (`none`). -/
structure RawEngRow where
  post_text : String
  comments : Option ℚ
  likes : Option ℚ
  combined : Option ℚ

/-- `pd.to_numeric(col, errors='coerce').fillna(0)` applied to one cell. -/
def coerceFill (c : Option ℚ) : ℚ := c.getD 0

/-- One row of the table returned by `load_engagement_data`. -/
structure EngRow where
  post_id : String
  post_text : String
  comments : ℚ
  likes : ℚ
  combined : ℚ
  engagement_rate : FVal
  comment_rate : FVal
  like_rate : FVal
  deriving DecidableEq

/-- `df['combined'].max()` over the coerced `combined` column.  pandas
returns NaN on an empty frame; the empty case is modelled as 0 here and is
not relied on by any theorem (all claims concern nonempty tables). -/
def maxCombined (rows : List RawEngRow) : ℚ :=
  match rows.map (fun r => coerceFill r.combined) with
  | [] => 0
  | x :: xs => xs.foldl max x

/-- Shallow embedding of `load_engagement_data` (`data_loader.py:60-84`):
assigns the synthetic identifier `str(index + 3)` to the row at 0-based
position `index`, coerces the three count columns with `fillna(0)`, and
derives `engagement_rate = combined / combined.max() * 100`,
`comment_rate = comments / combined * 100`,
`like_rate = likes / combined * 100` with IEEE division semantics. -/
def load_engagement_data (rows : List RawEngRow) : List EngRow :=
  let m := maxCombined rows
  rows.enum.map (fun p =>
    let i := p.1
    let r := p.2
    let c := coerceFill r.comments
    let l := coerceFill r.likes
    let cb := coerceFill r.combined
    { post_id := toString (i + 3)
      post_text := r.post_text
      comments := c
      likes := l
      combined := cb
      engagement_rate := (FVal.div (FVal.fin cb) (FVal.fin m)).mul100
      comment_rate := (FVal.div (FVal.fin c) (FVal.fin cb)).mul100
      like_rate := (FVal.div (FVal.fin l) (FVal.fin cb)).mul100 })

/-- The twelve numeric personality trait columns of the merged table: the
columns whose name starts with `big5_` or `partner_` and whose dtype is
numeric (cf. the `trait_cols` comprehension used in `data_loader.py:97`,
`consistency_analysis.py:56` and elsewhere). -/
inductive Trait where
  | big5_openness
  | big5_conscientiousness
  | big5_extraversion
  | big5_agreeableness
  | big5_neuroticism
  | partner_integrity_trust
  | partner_reliability
  | partner_collaboration
  | partner_adaptability
  | partner_risk_tolerance
  | partner_strategic_thinking
  | partner_leadership
  deriving DecidableEq, Fintype

/-- The trait column list, in the column order of the merged table. -/
def Trait.all : List Trait :=
  [.big5_openness, .big5_conscientiousness, .big5_extraversion,
   .big5_agreeableness, .big5_neuroticism,
   .partner_integrity_trust, .partner_reliability, .partner_collaboration,
   .partner_adaptability, .partner_risk_tolerance,
   .partner_strategic_thinking, .partner_leadership]

/-- Column name of a trait column, as produced by the record loader's
flattening (`big5_*` / `partner_*`). -/
def Trait.name : Trait → String
  | .big5_openness => "big5_openness"
  | .big5_conscientiousness => "big5_conscientiousness"
  | .big5_extraversion => "big5_extraversion"
  | .big5_agreeableness => "big5_agreeableness"
  | .big5_neuroticism => "big5_neuroticism"
  | .partner_integrity_trust => "partner_integrity_trust"
  | .partner_reliability => "partner_reliability"
  | .partner_collaboration => "partner_collaboration"
  | .partner_adaptability => "partner_adaptability"
  | .partner_risk_tolerance => "partner_risk_tolerance"
  | .partner_strategic_thinking => "partner_strategic_thinking"
  | .partner_leadership => "partner_leadership"

/-- One flattened personality record (one row of the table produced by
`load_personality_data`), restricted to the fields the verified claims
read: the string identifier, the twelve numeric trait columns and the four
boolean flag columns.  (The `topic_*` and `evidence_*` columns are carried
by the real table but are never read by any of the verified properties.) -/
structure PRow where
  post_id : String
  traits : Trait → ℚ
  flag_self_promotion : Bool
  flag_humility : Bool
  flag_controversial : Bool
  flag_aggressive_language : Bool

/-- Shallow embedding of `pd.merge(personality_df, engagement_df,
on='post_id', how='inner')` (`data_loader.py:119`): every pair of a
personality row and an engagement row with equal string identifiers,
grouped in left-table order as pandas does. -/
def inner_merge (ps : List PRow) (es : List EngRow) : List (PRow × EngRow) :=
  ps.flatMap (fun p =>
    (es.filter (fun e => e.post_id = p.post_id)).map (fun e => (p, e)))

section JoinCorrectness

/-- Number of merged rows carrying identifier `k`. -/
def mergedCount (ps : List PRow) (es : List EngRow) (k : String) : ℕ :=
  (inner_merge ps es).countP (fun pe => pe.1.post_id = k)

theorem mergedCount_eq (ps : List PRow) (es : List EngRow) (k : String) :
    mergedCount ps es k =
      (ps.countP (fun p => p.post_id = k)) *
        (es.countP (fun e => e.post_id = k)) := by
  induction ps with
  | nil => simp [mergedCount, inner_merge]
  | cons p ps ih =>
      have hstep : mergedCount (p :: ps) es k =
          ((es.filter (fun e => e.post_id = p.post_id)).map
            (fun e => (p, e))).countP (fun pe => pe.1.post_id = k)
            + mergedCount ps es k := by
        simp [mergedCount, inner_merge, List.countP_append]
      rw [hstep, ih, List.countP_map, List.countP_cons]
      have hcomp : ((fun pe : PRow × EngRow => decide (pe.1.post_id = k)) ∘
          fun e => (p, e)) = fun _ => decide (p.post_id = k) := rfl
      rw [hcomp]
      by_cases hp : p.post_id = k
      · subst hp
        rw [List.countP_eq_length.2 (fun _ _ => by simp),
          ← List.countP_eq_length_filter]
        simp [Nat.add_comm, Nat.add_mul]
      · rw [List.countP_eq_zero.2 (fun _ _ => by simpa using hp)]
        simp [hp]

theorem countP_key_le_one {α : Type} (f : α → String) (l : List α)
    (h : (l.map f).Nodup) (k : String) :
    l.countP (fun x => f x = k) ≤ 1 := by
  induction l with
  | nil => simp
  | cons a l ih =>
      rw [List.map_cons, List.nodup_cons] at h
      rw [List.countP_cons]
      by_cases ha : f a = k
      · have hz : l.countP (fun x => f x = k) = 0 := by
          apply List.countP_eq_zero.2
          intro x hx hfx
          apply h.1
          rw [ha]
          have : f x = k := by simpa using hfx
          rw [← this]
          exact List.mem_map_of_mem f hx
        simp [hz, ha]
      · simpa [ha] using ih h.2

theorem countP_disjoint {α : Type} (p q : α → Bool) (l : List α)
    (h : ∀ x ∈ l, ¬(p x = true ∧ q x = true)) :
    l.countP (fun x => p x || q x) = l.countP p + l.countP q := by
  induction l with
  | nil => simp
  | cons a l ih =>
      simp only [List.countP_cons]
      rw [ih (fun x hx => h x (List.mem_cons_of_mem a hx))]
      have ha := h a (List.mem_cons_self a l)
      by_cases hp : p a = true
      · have hq : q a = false := by
          cases hqv : q a with
          | false => rfl
          | true => exact absurd ⟨hp, hqv⟩ ha
        simp [hp, hq]
        omega
      · have hp' : p a = false := by simpa using hp
        by_cases hq : q a = true
        · simp [hp', hq]; omega
        · have hq' : q a = false := by simpa using hq
          simp [hp', hq']

theorem length_inner_merge (ps : List PRow) (es : List EngRow)
    (hps : (ps.map PRow.post_id).Nodup) :
    (inner_merge ps es).length =
      es.countP (fun e => decide (e.post_id ∈ ps.map PRow.post_id)) := by
  induction ps with
  | nil => simp [inner_merge]
  | cons p ps ih =>
      rw [List.map_cons, List.nodup_cons] at hps
      have hblock : (inner_merge (p :: ps) es).length =
          (es.filter (fun e => e.post_id = p.post_id)).length
            + (inner_merge ps es).length := by
        simp [inner_merge]
      rw [hblock, ih hps.2, ← List.countP_eq_length_filter]
      have hsplit : es.countP
          (fun e => decide (e.post_id ∈ (p :: ps).map PRow.post_id)) =
          es.countP (fun e =>
            decide (e.post_id = p.post_id)
              || decide (e.post_id ∈ ps.map PRow.post_id)) := by
        apply List.countP_congr
        intro e _
        simp [List.mem_cons]
      rw [hsplit, countP_disjoint]
      intro e _ hboth
      apply hps.1
      have h1 : e.post_id = p.post_id := by simpa using hboth.1
      have h2 : e.post_id ∈ ps.map PRow.post_id := by simpa using hboth.2
      rwa [h1] at h2

theorem length_inner_merge_le_left (ps : List PRow) (es : List EngRow)
    (hes : (es.map EngRow.post_id).Nodup) :
    (inner_merge ps es).length ≤ ps.length := by
  induction ps with
  | nil => simp [inner_merge]
  | cons p ps ih =>
      have hblock : (inner_merge (p :: ps) es).length =
          (es.filter (fun e => e.post_id = p.post_id)).length
            + (inner_merge ps es).length := by
        simp [inner_merge]
      rw [hblock]
      have h1 : (es.filter (fun e => e.post_id = p.post_id)).length ≤ 1 := by
        rw [← List.countP_eq_length_filter]
        exact countP_key_le_one EngRow.post_id es hes p.post_id
      have := ih
      simp only [List.length_cons]
      omega

/-- C1.  **Join correctness** (`load_and_merge_data`, `data_loader.py:110-127`):
when `post_id` is unique within each source, the inner-merged table has
exactly one row for each identifier present in both sources, no row for an
identifier present in only one source, and at most
`min (rows personality) (rows engagement)` rows in total. -/
theorem C1_join_correctness (ps : List PRow) (es : List EngRow)
    (hps : (ps.map PRow.post_id).Nodup) (hes : (es.map EngRow.post_id).Nodup) :
    (∀ k, k ∈ ps.map PRow.post_id → k ∈ es.map EngRow.post_id →
        mergedCount ps es k = 1) ∧
    (∀ k, k ∉ ps.map PRow.post_id ∨ k ∉ es.map EngRow.post_id →
        mergedCount ps es k = 0) ∧
    (inner_merge ps es).length ≤ min ps.length es.length := by
  have hcount : ∀ (k : String),
      ps.countP (fun p => p.post_id = k) =
        (ps.map PRow.post_id).countP (fun s => s = k) := by
    intro k
    rw [List.countP_map]
    rfl
  have hcountE : ∀ (k : String),
      es.countP (fun e => e.post_id = k) =
        (es.map EngRow.post_id).countP (fun s => s = k) := by
    intro k
    rw [List.countP_map]
    rfl
  refine ⟨?_, ?_, ?_⟩
  · intro k hkp hke
    rw [mergedCount_eq]
    have h1 : ps.countP (fun p => p.post_id = k) = 1 := by
      have hle := countP_key_le_one PRow.post_id ps hps k
      have hpos : 0 < ps.countP (fun p => p.post_id = k) := by
        rw [List.countP_pos_iff]
        obtain ⟨p, hp, hpk⟩ := List.mem_map.1 hkp
        exact ⟨p, hp, by simpa using hpk⟩
      omega
    have h2 : es.countP (fun e => e.post_id = k) = 1 := by
      have hle := countP_key_le_one EngRow.post_id es hes k
      have hpos : 0 < es.countP (fun e => e.post_id = k) := by
        rw [List.countP_pos_iff]
        obtain ⟨e, he, hek⟩ := List.mem_map.1 hke
        exact ⟨e, he, by simpa using hek⟩
      omega
    rw [h1, h2]
  · intro k hk
    rw [mergedCount_eq]
    rcases hk with hk | hk
    · have h1 : ps.countP (fun p => p.post_id = k) = 0 := by
        apply List.countP_eq_zero.2
        intro p hp hpk
        exact hk (List.mem_map.2 ⟨p, hp, by simpa using hpk⟩)
      simp [h1]
    · have h2 : es.countP (fun e => e.post_id = k) = 0 := by
        apply List.countP_eq_zero.2
        intro e he hek
        exact hk (List.mem_map.2 ⟨e, he, by simpa using hek⟩)
      simp [h2]
  · refine le_min ?_ ?_
    · exact length_inner_merge_le_left ps es hes
    · rw [length_inner_merge ps es hps]
      exact List.countP_le_length _

end JoinCorrectness

/-- Personality rows of the witness join input. -/
def c1ps : List PRow :=
  [{ post_id := "3", traits := fun _ => 3, flag_self_promotion := false,
     flag_humility := false, flag_controversial := false,
     flag_aggressive_language := false },
   { post_id := "4", traits := fun _ => 4, flag_self_promotion := true,
     flag_humility := false, flag_controversial := false,
     flag_aggressive_language := false }]

/-- Engagement rows of the witness join input. -/
def c1es : List EngRow :=
  [{ post_id := "4", post_text := "t", comments := 1, likes := 2,
     combined := 3, engagement_rate := .fin 100, comment_rate := .fin (100/3),
     like_rate := .fin (200/3) }]

theorem C1_join_correctness_witness :
    mergedCount c1ps c1es "4" = 1 ∧ mergedCount c1ps c1es "9" = 0 ∧
      (inner_merge c1ps c1es).length ≤ min c1ps.length c1es.length := by
  have h := C1_join_correctness c1ps c1es (by decide) (by decide)
  exact ⟨h.1 "4" (by decide) (by decide), h.2.1 "9" (Or.inl (by decide)), h.2.2⟩

/-! ## Composite score engine (`create_composite_scores`, `data_loader.py:86-108`) -/

/-- Mean of a list of rationals (`DataFrame.mean(axis=1)` over fully
present numeric cells). -/
def meanQ (xs : List ℚ) : ℚ := xs.sum / xs.length

/-- Sample variance with pandas' default `ddof=1`
(`DataFrame.std(axis=1) ** 2`).  When the list has at most one element the
rational division by `n - 1 = 0` yields 0; pandas yields NaN there, a case
outside every verified property (the merged table always carries the
twelve trait columns). -/
def sampleVar (xs : List ℚ) : ℚ :=
  (xs.map (fun x => (x - meanQ xs) ^ 2)).sum / (xs.length - 1 : ℚ)

/-- The values of the twelve numeric trait columns of a row, in column
order (the `df[trait_cols]` selection). -/
def traitVals (r : PRow) : List ℚ := Trait.all.map r.traits

/-- `df['partnership_compatibility'] = df[['partner_integrity_trust',
'partner_reliability', 'partner_collaboration']].mean(axis=1)`. -/
def partnership_compatibility (r : PRow) : ℚ :=
  meanQ [r.traits .partner_integrity_trust, r.traits .partner_reliability,
         r.traits .partner_collaboration]

/-- `df['thought_leadership'] = df[['partner_strategic_thinking',
'big5_openness', 'partner_leadership']].mean(axis=1)`. -/
def thought_leadership (r : PRow) : ℚ :=
  meanQ [r.traits .partner_strategic_thinking, r.traits .big5_openness,
         r.traits .partner_leadership]

/-- `df['trait_volatility'] = df[trait_cols].std(axis=1)`: the per-row
sample standard deviation across the twelve numeric trait columns.
`sqrtFn` stands for the floating-point square root, which has no exact
rational counterpart; all verified properties hold for every `sqrtFn`. -/
def trait_volatility (sqrtFn : ℚ → ℚ) (r : PRow) : ℚ :=
  sqrtFn (sampleVar (traitVals r))

/-- `df['brand_consistency'] = 5 - df['trait_volatility']`. -/
def brand_consistency (sqrtFn : ℚ → ℚ) (r : PRow) : ℚ :=
  5 - trait_volatility sqrtFn r

/-- `df['professional_risk']`: weighted flag sum with weights
controversial × 2, aggressive_language × 2, self_promotion × 1. -/
def professional_risk (r : PRow) : ℚ :=
  (if r.flag_controversial then 1 else 0) * 2
    + (if r.flag_aggressive_language then 1 else 0) * 2
    + (if r.flag_self_promotion then 1 else 0) * 1

theorem mean3_bounds {a b c : ℚ} (ha : 1 ≤ a ∧ a ≤ 5) (hb : 1 ≤ b ∧ b ≤ 5)
    (hc : 1 ≤ c ∧ c ≤ 5) : 1 ≤ meanQ [a, b, c] ∧ meanQ [a, b, c] ≤ 5 := by
  unfold meanQ
  constructor
  · simp only [List.sum_cons, List.sum_nil, List.length_cons, List.length_nil]
    rw [le_div_iff₀ (by norm_num)]
    push_cast
    linarith [ha.1, hb.1, hc.1]
  · simp only [List.sum_cons, List.sum_nil, List.length_cons, List.length_nil]
    rw [div_le_iff₀ (by norm_num)]
    push_cast
    linarith [ha.2, hb.2, hc.2]

/-- C2.  **Composite score bounds** (`create_composite_scores`,
`data_loader.py:86-108`): when every trait value of a merged row lies in
[1,5], `partnership_compatibility` and `thought_leadership` lie in [1,5];
and for every row (no hypothesis needed) `brand_consistency` equals
exactly `5 - trait_volatility`, the per-row standard deviation across the
twelve numeric `big5_*`/`partner_*` trait columns. -/
theorem C2_composite_scores (sqrtFn : ℚ → ℚ) (r : PRow)
    (h : ∀ t : Trait, 1 ≤ r.traits t ∧ r.traits t ≤ 5) :
    (1 ≤ partnership_compatibility r ∧ partnership_compatibility r ≤ 5) ∧
    (1 ≤ thought_leadership r ∧ thought_leadership r ≤ 5) ∧
    brand_consistency sqrtFn r
      = 5 - sqrtFn (sampleVar (Trait.all.map r.traits)) := by
  refine ⟨?_, ?_, rfl⟩
  · exact mean3_bounds (h _) (h _) (h _)
  · exact mean3_bounds (h _) (h _) (h _)

/-- A concrete merged row used to instantiate `C2_composite_scores`. -/
def c2row : PRow :=
  { post_id := "7", traits := fun t => if t = .big5_openness then 5 else 2,
    flag_self_promotion := false, flag_humility := true,
    flag_controversial := false, flag_aggressive_language := false }

theorem C2_composite_scores_witness :
    (1 ≤ partnership_compatibility c2row ∧ partnership_compatibility c2row ≤ 5) ∧
    (1 ≤ thought_leadership c2row ∧ thought_leadership c2row ≤ 5) ∧
    brand_consistency (fun _ => 0) c2row
      = 5 - (fun _ : ℚ => 0) (sampleVar (Trait.all.map c2row.traits)) :=
  C2_composite_scores (fun _ => 0) c2row (by decide)

/-! ## Engagement loader claims (`load_engagement_data`, `data_loader.py:60-84`) -/

/-- C10.  **Synthetic identifier offset** (`data_loader.py:70-71`,
`df['post_id'] = (df.index + 3).astype(str)`): the identifier of the row
at 0-based position `i` is the decimal string of `i + 3`, so the first row
gets `"3"` and identifiers are consecutive integer strings thereafter. -/
theorem C10_synthetic_ids (rows : List RawEngRow) :
    (load_engagement_data rows).map EngRow.post_id
      = (List.range rows.length).map (fun i => toString (i + 3)) := by
  unfold load_engagement_data
  rw [List.map_map]
  have h : (EngRow.post_id ∘ fun p : ℕ × RawEngRow =>
      ({ post_id := toString (p.1 + 3)
         post_text := p.2.post_text
         comments := coerceFill p.2.comments
         likes := coerceFill p.2.likes
         combined := coerceFill p.2.combined
         engagement_rate :=
           (FVal.div (FVal.fin (coerceFill p.2.combined))
             (FVal.fin (maxCombined rows))).mul100
         comment_rate :=
           (FVal.div (FVal.fin (coerceFill p.2.comments))
             (FVal.fin (coerceFill p.2.combined))).mul100
         like_rate :=
           (FVal.div (FVal.fin (coerceFill p.2.likes))
             (FVal.fin (coerceFill p.2.combined))).mul100 } : EngRow))
      = (fun i => toString (i + 3)) ∘ Prod.fst := rfl
  rw [h, ← List.map_map, List.enum_map_fst]

/-- Single-row table whose `comments` cell is 5 but whose `combined` cell
is 0: the comment rate divides a nonzero numerator by zero. -/
def c3rows : List RawEngRow :=
  [{ post_text := "x", comments := some 5, likes := some 0, combined := some 0 }]

/-- C3, counterexample.  On a row with `combined = 0` and `comments = 5`
the code produces `comment_rate = +∞` (numpy float division of a nonzero
numerator by zero), so "never produces an infinite value" fails. -/
theorem C3_counterexample :
    (load_engagement_data c3rows).map (fun e => (e.combined, e.comment_rate))
      = [(0, FVal.pinf)] := by decide

/-- C3, amended.  **Rate safety** as the code implements it: the rate
computation is total (never an exception), and on a row whose combined
total is 0 the comment/like rate is NaN exactly when the numerator is 0,
and an infinity (of the numerator's sign) when the numerator is nonzero. -/
theorem div_by_zero_cases (x : ℚ) :
    (x = 0 → (FVal.div (FVal.fin x) (FVal.fin 0)).mul100 = FVal.nan) ∧
    (0 < x → (FVal.div (FVal.fin x) (FVal.fin 0)).mul100 = FVal.pinf) ∧
    (x < 0 → (FVal.div (FVal.fin x) (FVal.fin 0)).mul100 = FVal.ninf) := by
  refine ⟨?_, ?_, ?_⟩ <;> intro h
  · simp [FVal.div, FVal.mul100, h]
  · simp [FVal.div, FVal.mul100, h]
  · have h1 : ¬ (x > 0) := by linarith
    simp [FVal.div, FVal.mul100, h1, h]

theorem C3_rate_safety_amended (rows : List RawEngRow) (e : EngRow)
    (he : e ∈ load_engagement_data rows) (hz : e.combined = 0) :
    ((e.comments = 0 → e.comment_rate = FVal.nan) ∧
     (0 < e.comments → e.comment_rate = FVal.pinf) ∧
     (e.comments < 0 → e.comment_rate = FVal.ninf)) ∧
    ((e.likes = 0 → e.like_rate = FVal.nan) ∧
     (0 < e.likes → e.like_rate = FVal.pinf) ∧
     (e.likes < 0 → e.like_rate = FVal.ninf)) := by
  unfold load_engagement_data at he
  obtain ⟨p, _, rfl⟩ := List.mem_map.1 he
  simp only at hz ⊢
  rw [hz]
  exact ⟨div_by_zero_cases _, div_by_zero_cases _⟩

theorem C3_rate_safety_amended_witness :
    ∃ e ∈ load_engagement_data c3rows, e.combined = 0 ∧
      (0 < e.comments → e.comment_rate = FVal.pinf) ∧
      (e.likes = 0 → e.like_rate = FVal.nan) := by
  have hmem : (load_engagement_data c3rows).head (by decide)
      ∈ load_engagement_data c3rows := List.head_mem _
  refine ⟨_, hmem, by decide, ?_, ?_⟩
  · exact fun h =>
      ((C3_rate_safety_amended c3rows _ hmem (by decide)).1.2.1) h
  · exact fun h =>
      ((C3_rate_safety_amended c3rows _ hmem (by decide)).2.1) h

theorem foldl_max_mem (x : ℚ) (xs : List ℚ) : xs.foldl max x ∈ x :: xs := by
  induction xs generalizing x with
  | nil => simp
  | cons y ys ih =>
      rw [List.foldl_cons]
      rcases List.mem_cons.1 (ih (max x y)) with h | h
      · rcases le_total x y with hxy | hxy
        · rw [h, max_eq_right hxy]; simp
        · rw [h, max_eq_left hxy]; simp
      · simp [h]

theorem maxCombined_mem (rows : List RawEngRow) (hne : rows ≠ []) :
    maxCombined rows ∈ rows.map (fun r => coerceFill r.combined) := by
  cases rows with
  | nil => exact absurd rfl hne
  | cons r rs =>
      rw [List.map_cons]
      exact foldl_max_mem _ _

/-- Two-row table tying for the maximal combined value. -/
def c9rows : List RawEngRow :=
  [{ post_text := "a", comments := some 1, likes := some 1, combined := some 5 },
   { post_text := "b", comments := some 1, likes := some 1, combined := some 5 }]

/-- C9, counterexample.  On a nonempty table where two rows tie for the
maximal `combined` value, both rows attain `engagement_rate = 100`, so
"exactly one row attains the value 100" fails. -/
theorem C9_counterexample :
    (load_engagement_data c9rows).map (fun e => e.engagement_rate)
      = [FVal.fin 100, FVal.fin 100] := by
  simp only [load_engagement_data, c9rows, maxCombined, coerceFill,
    List.map_cons, List.map_nil, List.enum, List.enumFrom, Option.getD_some,
    List.foldl_cons, List.foldl_nil, max_self]
  norm_num [FVal.div, FVal.mul100]

/-- C9, amended.  For every nonempty engagement table:
`engagement_rate = combined / max(combined) × 100` for every row; every
row whose `combined` equals the (nonzero) maximum attains exactly 100; and
at least one row attains the maximum.  (Exactly one row attains 100 only
when the maximal `combined` value is attained by a unique row; ties give
several rows with rate 100.) -/
theorem C9_engagement_rate_amended (rows : List RawEngRow) (hne : rows ≠ []) :
    (∀ e ∈ load_engagement_data rows,
        e.engagement_rate
          = (FVal.div (FVal.fin e.combined)
              (FVal.fin (maxCombined rows))).mul100) ∧
    (∀ e ∈ load_engagement_data rows,
        e.combined = maxCombined rows → maxCombined rows ≠ 0 →
          e.engagement_rate = FVal.fin 100) ∧
    (∃ e ∈ load_engagement_data rows, e.combined = maxCombined rows) := by
  have hform : ∀ e ∈ load_engagement_data rows,
      e.engagement_rate
        = (FVal.div (FVal.fin e.combined)
            (FVal.fin (maxCombined rows))).mul100 := by
    intro e he
    unfold load_engagement_data at he
    obtain ⟨p, _, rfl⟩ := List.mem_map.1 he
    rfl
  refine ⟨hform, ?_, ?_⟩
  · intro e he hmax hnz
    rw [hform e he, hmax]
    simp [FVal.div, FVal.mul100, hnz, div_self]
  · have hmem := maxCombined_mem rows hne
    obtain ⟨r, hr, hrc⟩ := List.mem_map.1 hmem
    have hr' : r ∈ rows.enum.map Prod.snd := by
      rw [List.enum_map_snd]; exact hr
    obtain ⟨p, hp, hps⟩ := List.mem_map.1 hr'
    have hstep : ∃ e ∈ load_engagement_data rows,
        e.combined = coerceFill r.combined := by
      unfold load_engagement_data
      refine ⟨_, List.mem_map_of_mem _ hp, ?_⟩
      show coerceFill p.2.combined = coerceFill r.combined
      rw [hps]
    obtain ⟨e, he, hec⟩ := hstep
    exact ⟨e, he, by rw [hec, hrc]⟩

theorem C9_engagement_rate_amended_witness :
    ∃ e ∈ load_engagement_data c9rows, e.combined = maxCombined c9rows :=
  (C9_engagement_rate_amended c9rows (by simp [c9rows])).2.2

/-! ## Trend direction labels (`evolution_tracking.py:86-90`,
`behavioral_flags.py:125-133`) -/

/-- The rolling-trend drift analyzer's directional label
(`evolution_tracking.py:89`): `'increasing' if slope > 0 else 'decreasing'
if slope < 0 else 'stable'` — a pure sign test with no dead-zone. -/
def driftDirection (slope : ℚ) : String :=
  if slope > 0 then "increasing"
  else if slope < 0 then "decreasing"
  else "stable"

/-- The interval-bucketed trend label (`behavioral_flags.py:128`):
`"📈 Increasing" if slope > 0.01 else "📉 Decreasing" if slope < -0.01
else "📊 Stable"` — a dead-zone of width 0.01 around zero. -/
def intervalTrendDirection (slope : ℚ) : String :=
  if slope > 1/100 then "📈 Increasing"
  else if slope < -(1/100) then "📉 Decreasing"
  else "📊 Stable"

/-- C8, counterexample.  The rolling-trend drift analyzer has NO dead-zone:
for every ε > 0 the slope ε/2 satisfies |ε/2| < ε yet is labeled
"increasing", so no positive ε makes all smaller slopes "stable". -/
theorem C8_counterexample :
    ¬ ∃ ε : ℚ, 0 < ε ∧ ∀ s : ℚ, |s| < ε → driftDirection s = "stable" := by
  rintro ⟨ε, hε, h⟩
  have habs : |ε / 2| < ε := by
    rw [abs_of_pos (by linarith)]
    linarith
  have := h (ε / 2) habs
  rw [driftDirection, if_pos (by linarith : ε / 2 > 0)] at this
  exact absurd this (by decide)

/-- C8, amended.  The slope-to-label rule with a dead-zone exists only in
the interval-bucketed trend analysis (`analyze_flag_interval_trends`),
where ε = 0.01: slopes of magnitude below 0.01 are labeled stable, above
0.01 increasing, below -0.01 decreasing.  The rolling-trend drift analyzer
(`generate_evolution_tracking`) instead labels by the exact sign of the
slope: "stable" exactly when the slope is 0, "increasing" for every
positive slope and "decreasing" for every negative slope, however small. -/
theorem C8_trend_labels_amended (s : ℚ) :
    (driftDirection s = "stable" ↔ s = 0) ∧
    (0 < s → driftDirection s = "increasing") ∧
    (s < 0 → driftDirection s = "decreasing") ∧
    (|s| < 1/100 → intervalTrendDirection s = "📊 Stable") ∧
    (1/100 < s → intervalTrendDirection s = "📈 Increasing") ∧
    (s < -(1/100) → intervalTrendDirection s = "📉 Decreasing") := by
  refine ⟨⟨?_, ?_⟩, ?_, ?_, ?_, ?_, ?_⟩
  · intro h
    by_contra hs
    rcases lt_or_gt_of_ne hs with hlt | hgt
    · rw [driftDirection, if_neg (by linarith), if_pos hlt] at h
      exact absurd h (by decide)
    · rw [driftDirection, if_pos hgt] at h
      exact absurd h (by decide)
  · intro h
    rw [h, driftDirection]
    norm_num
  · intro h
    rw [driftDirection, if_pos h]
  · intro h
    rw [driftDirection, if_neg (by linarith), if_pos h]
  · intro h
    rw [abs_lt] at h
    rw [intervalTrendDirection, if_neg (by linarith), if_neg (by linarith)]
  · intro h
    rw [intervalTrendDirection, if_pos h]
  · intro h
    rw [intervalTrendDirection, if_neg (by linarith), if_pos h]

theorem C8_trend_labels_amended_witness :
    driftDirection (1/200) = "increasing" ∧
    intervalTrendDirection (1/200) = "📊 Stable" :=
  ⟨(C8_trend_labels_amended (1/200)).2.1 (by norm_num),
   (C8_trend_labels_amended (1/200)).2.2.2.1
     (by rw [abs_of_pos (by norm_num)]; norm_num)⟩

/-! ## Outlier analyzer (`detect_outlier_posts`,
`consistency_analysis.py:54-83`) -/

/-- One trait column of the merged table (`df[trait]`). -/
def traitColumn (df : List PRow) (t : Trait) : List ℚ :=
  df.map (fun r => r.traits t)

/-- `df[trait].mean()`: global mean of one trait column. -/
def traitMean (df : List PRow) (t : Trait) : ℚ := meanQ (traitColumn df t)

/-- `df[trait].std() ** 2`: global sample variance (pandas `ddof=1`) of one
trait column.  The code's guard `trait_std > 0` is `0 < traitVarS` here,
and its comparison `z > 2.0` on `z = abs((x - mean) / std)` is the exact
squared comparison `4 < zsq` below — squaring is strictly monotone on
nonnegatives, so the two are equivalent; the square root itself never has
to be taken. -/
def traitVarS (df : List PRow) (t : Trait) : ℚ := sampleVar (traitColumn df t)

/-- The squared z-score `((x - mean) / std) ** 2` of one row's trait value
against the column's global mean/std. -/
def zsq (df : List PRow) (r : PRow) (t : Trait) : ℚ :=
  (r.traits t - traitMean df t) ^ 2 / traitVarS df t

/-- The row's `post_deviations` list (squared): one entry per trait whose
column std is positive, in trait-column order, exactly as the code's
conditional `append` builds it. -/
def post_deviations (df : List PRow) (r : PRow) : List ℚ :=
  (Trait.all.filter (fun t => decide (0 < traitVarS df t))).map
    (fun t => zsq df r t)

/-- The outlier record for one post.  The code also carries
`max_deviation` and `avg_deviation` (max and mean of the z-scores); those
two fields are irrational in general (square roots) and are not referenced
by any verified property, so they are omitted from the embedding. -/
structure OutlierRecord where
  post_id : String
  outlier_traits : List String
  deriving DecidableEq

/-- The contribution of one row to the outlier list: the row is reported
iff its maximal deviation exceeds 2σ (`max(post_deviations) > 2.0`, i.e.
some squared deviation exceeds 4), and its `outlier_traits` are taken from
`zip(trait_cols, post_deviations)` — NOTE: the code zips the full
`trait_cols` list against the possibly shorter deviations list (traits with
zero std contribute no deviation), and the embedding reproduces this
faithfully via `List.zip`. -/
def outlierEntry (df : List PRow) (r : PRow) : Option OutlierRecord :=
  let devs := post_deviations df r
  if devs.any (fun d => decide (4 < d)) then
    some { post_id := r.post_id
           outlier_traits :=
             ((Trait.all.zip devs).filter (fun p => decide (4 < p.2))).map
               (fun p => p.1.name) }
  else none

/-- Shallow embedding of `detect_outlier_posts`
(`consistency_analysis.py:54-83`): iterate the merged rows in order and
collect an outlier record for every row whose maximal |z| exceeds 2. -/
def detect_outlier_posts (df : List PRow) : List OutlierRecord :=
  df.filterMap (outlierEntry df)

/-- A post is an outlier: some trait column has positive std and the
post's squared z-score on it exceeds 4 (i.e. |z| > 2). -/
def isOutlier (df : List PRow) (r : PRow) : Prop :=
  ∃ t : Trait, 0 < traitVarS df t ∧ 4 < zsq df r t

instance isOutlierDecidable (df : List PRow) (r : PRow) :
    Decidable (isOutlier df r) :=
  inferInstanceAs (Decidable (∃ t : Trait, 0 < traitVarS df t ∧ 4 < zsq df r t))

theorem mem_trait_all (t : Trait) : t ∈ Trait.all := by
  cases t <;> simp [Trait.all]

theorem outlierEntry_isSome (df : List PRow) (r : PRow) :
    (post_deviations df r).any (fun d => decide (4 < d)) = true
      ↔ isOutlier df r := by
  rw [List.any_eq_true]
  constructor
  · rintro ⟨d, hd, h4⟩
    rw [post_deviations] at hd
    obtain ⟨t, ht, rfl⟩ := List.mem_map.1 hd
    have hvar := List.of_mem_filter ht
    exact ⟨t, by simpa using hvar, by simpa using h4⟩
  · rintro ⟨t, hvar, hz⟩
    refine ⟨zsq df r t, ?_, by simpa using hz⟩
    rw [post_deviations]
    apply List.mem_map_of_mem
    exact List.mem_filter.2 ⟨mem_trait_all t, by simpa using hvar⟩

theorem filterMap_congr' {α β : Type} (l : List α) (f g : α → Option β)
    (h : ∀ x ∈ l, f x = g x) : l.filterMap f = l.filterMap g := by
  induction l with
  | nil => rfl
  | cons a l ih =>
      rw [List.filterMap_cons, List.filterMap_cons,
        h a (List.mem_cons_self a l), ih (fun x hx => h x (List.mem_cons_of_mem a hx))]

theorem detect_aux (df : List PRow) (l : List PRow) :
    (l.filterMap (outlierEntry df)).map OutlierRecord.post_id
      = (l.filter (fun r => decide (isOutlier df r))).map PRow.post_id := by
  induction l with
  | nil => rfl
  | cons r l ih =>
      by_cases h : (post_deviations df r).any (fun d => decide (4 < d)) = true
      · have hiso : decide (isOutlier df r) = true :=
          decide_eq_true ((outlierEntry_isSome df r).1 h)
        simp [outlierEntry, h, hiso, ih]
      · have hb : (post_deviations df r).any (fun d => decide (4 < d)) = false := by
          simpa using h
        have hiso : decide (isOutlier df r) = false := by
          rw [decide_eq_false_iff_not]
          intro hout
          exact h ((outlierEntry_isSome df r).2 hout)
        simp [outlierEntry, hb, hiso, ih]

/-- Reported outliers are exactly the rows satisfying `isOutlier`, with
identifiers in table order. -/
theorem detect_outlier_posts_ids (df : List PRow) :
    (detect_outlier_posts df).map OutlierRecord.post_id
      = (df.filter (fun r => decide (isOutlier df r))).map PRow.post_id :=
  detect_aux df df

theorem sum_map_range_const (n : ℕ) (f : ℕ → ℚ) (b : ℚ)
    (h : ∀ i < n, f i = b) : ((List.range n).map f).sum = n * b := by
  have hcg : (List.range n).map f = (List.range n).map (fun _ => b) :=
    List.map_congr_left (fun i hi => h i (List.mem_range.1 hi))
  rw [hcg, List.map_const', List.sum_replicate, List.length_range,
    nsmul_eq_mul]

theorem sum_map_range_ite (n j : ℕ) (hj : j < n) (a b : ℚ) :
    ((List.range n).map (fun i => if i = j then a else b)).sum
      = b * n + (a - b) := by
  induction n with
  | zero => omega
  | succ n ih =>
      rw [List.range_succ, List.map_append, List.sum_append]
      by_cases hjn : j = n
      · subst hjn
        have h1 : ((List.range j).map
            (fun i => if i = j then a else b)).sum = j * b :=
          sum_map_range_const j _ b (fun i hi => if_neg (by omega))
        simp only [List.map_cons, List.map_nil, List.sum_cons, List.sum_nil,
          if_pos rfl]
        rw [h1]
        push_cast
        ring
      · have hj' : j < n := by omega
        rw [ih hj']
        simp only [List.map_cons, List.map_nil, List.sum_cons, List.sum_nil,
          if_neg (by omega : ¬ n = j)]
        push_cast
        ring

theorem range_filterMap_single {β : Type} (n j : ℕ) (hj : j < n) (v : β) :
    (List.range n).filterMap (fun i => if i = j then some v else none)
      = [v] := by
  induction n with
  | zero => omega
  | succ n ih =>
      rw [List.range_succ, List.filterMap_append]
      by_cases hjn : j = n
      · subst hjn
        have h1 : (List.range j).filterMap
            (fun i => if i = j then some v else none) = [] :=
          List.filterMap_eq_nil_iff.2
            (fun i hi => if_neg (by have := List.mem_range.1 hi; omega))
        rw [h1]
        simp
      · have hj' : j < n := by omega
        rw [ih hj']
        have h2 : (List.filterMap
            (fun i => if i = j then some v else none) [n]) = [] := by
          simp [List.filterMap_cons, if_neg (by omega : ¬ n = j)]
        rw [h2]
        simp

/-- The end-to-end scenario row: post `i+1` (identifiers "1".."120"), all
traits 3, except that post "60" (index 59) has `big5_openness = 5`. -/
def scenarioRow (i : ℕ) : PRow :=
  { post_id := toString (i + 1)
    traits := fun t => if i = 59 ∧ t = Trait.big5_openness then 5 else 3
    flag_self_promotion := false
    flag_humility := false
    flag_controversial := false
    flag_aggressive_language := false }

/-- The 120-post end-to-end scenario table. -/
def scenario120 : List PRow := (List.range 120).map scenarioRow

theorem scenario_column (t : Trait) :
    traitColumn scenario120 t
      = (List.range 120).map
          (fun i => if i = 59 ∧ t = Trait.big5_openness then (5:ℚ) else 3) := by
  rw [traitColumn, scenario120, List.map_map]
  rfl

theorem scenario_column_const (t : Trait) (ht : t ≠ Trait.big5_openness) :
    traitColumn scenario120 t = List.replicate 120 (3:ℚ) := by
  rw [scenario_column]
  have h : ∀ i ∈ List.range 120,
      (if i = 59 ∧ t = Trait.big5_openness then (5:ℚ) else 3) = 3 :=
    fun i _ => if_neg (by tauto)
  rw [List.map_congr_left h, List.map_const', List.length_range]

theorem meanQ_replicate (n : ℕ) (c : ℚ) (hn : n ≠ 0) :
    meanQ (List.replicate n c) = c := by
  have h : (n : ℚ) ≠ 0 := Nat.cast_ne_zero.2 hn
  rw [meanQ, List.sum_replicate, List.length_replicate, nsmul_eq_mul]
  field_simp

theorem sampleVar_replicate (n : ℕ) (c : ℚ) :
    sampleVar (List.replicate n c) = 0 := by
  cases n with
  | zero => simp [sampleVar, meanQ]
  | succ n =>
      have hμ : meanQ (List.replicate (n + 1) c) = c :=
        meanQ_replicate _ c (by omega)
      rw [sampleVar, hμ]
      simp [List.map_replicate, List.sum_replicate]

theorem scenario_var_zero (t : Trait) (ht : t ≠ Trait.big5_openness) :
    traitVarS scenario120 t = 0 := by
  rw [traitVarS, scenario_column_const t ht, sampleVar_replicate]

theorem scenario_column_open :
    traitColumn scenario120 Trait.big5_openness
      = (List.range 120).map (fun i => if i = 59 then (5:ℚ) else 3) := by
  rw [scenario_column]
  exact List.map_congr_left (fun i _ => by simp)

theorem scenario_mean_open :
    traitMean scenario120 Trait.big5_openness = 181/60 := by
  rw [traitMean, scenario_column_open, meanQ,
    sum_map_range_ite 120 59 (by omega) 5 3, List.length_map,
    List.length_range]
  norm_num

theorem scenario_var_open :
    traitVarS scenario120 Trait.big5_openness = 1/30 := by
  rw [traitVarS, scenario_column_open, sampleVar]
  have hμ : meanQ ((List.range 120).map
      fun i => if i = 59 then (5:ℚ) else 3) = 181/60 := by
    rw [meanQ, sum_map_range_ite 120 59 (by omega) 5 3, List.length_map,
      List.length_range]
    norm_num
  rw [hμ, List.map_map]
  have hcomp : ((fun x => (x - 181/60) ^ 2) ∘
      fun i => if i = 59 then (5:ℚ) else 3)
      = fun i => if i = 59 then ((5:ℚ) - 181/60) ^ 2
          else ((3:ℚ) - 181/60) ^ 2 := by
    funext i
    by_cases h : i = 59 <;> simp [h]
  rw [hcomp, sum_map_range_ite 120 59 (by omega), List.length_map,
    List.length_range]
  norm_num

theorem scenario_filter :
    Trait.all.filter (fun t => decide (0 < traitVarS scenario120 t))
      = [Trait.big5_openness] := by
  have hpos : decide (0 < traitVarS scenario120 Trait.big5_openness) = true := by
    rw [scenario_var_open]
    exact decide_eq_true (by norm_num)
  have hneg : ∀ t : Trait, t ≠ Trait.big5_openness →
      decide (0 < traitVarS scenario120 t) = false := by
    intro t ht
    rw [scenario_var_zero t ht]
    exact decide_eq_false (lt_irrefl 0)
  rw [Trait.all]
  simp only [List.filter_cons, List.filter_nil, hpos,
    hneg Trait.big5_conscientiousness (by decide),
    hneg Trait.big5_extraversion (by decide),
    hneg Trait.big5_agreeableness (by decide),
    hneg Trait.big5_neuroticism (by decide),
    hneg Trait.partner_integrity_trust (by decide),
    hneg Trait.partner_reliability (by decide),
    hneg Trait.partner_collaboration (by decide),
    hneg Trait.partner_adaptability (by decide),
    hneg Trait.partner_risk_tolerance (by decide),
    hneg Trait.partner_strategic_thinking (by decide),
    hneg Trait.partner_leadership (by decide)]
  simp

theorem scenario_zsq (i : ℕ) :
    zsq scenario120 (scenarioRow i) Trait.big5_openness
      = if i = 59 then (14161/120 : ℚ) else 1/120 := by
  rw [zsq, scenario_mean_open, scenario_var_open]
  by_cases h : i = 59
  · subst h
    norm_num [scenarioRow]
  · simp only [scenarioRow]
    rw [if_neg (by tauto), if_neg h]
    norm_num

theorem scenario_entry (i : ℕ) :
    outlierEntry scenario120 (scenarioRow i)
      = if i = 59 then
          some { post_id := "60", outlier_traits := ["big5_openness"] }
        else none := by
  rw [outlierEntry, post_deviations, scenario_filter]
  simp only [List.map_cons, List.map_nil]
  rw [scenario_zsq]
  by_cases h : i = 59
  · subst h
    rw [if_pos rfl, if_pos rfl]
    have hd : decide (4 < (14161/120 : ℚ)) = true :=
      decide_eq_true (by norm_num)
    simp only [List.any_cons, List.any_nil, hd, Bool.true_or, if_true,
      Bool.or_false]
    have hzip : Trait.all.zip [(14161/120 : ℚ)]
        = [(Trait.big5_openness, (14161/120 : ℚ))] := by
      rw [Trait.all]
      rfl
    rw [hzip]
    simp only [List.filter_cons, List.filter_nil, hd, List.map_cons,
      List.map_nil]
    have hid : (scenarioRow 59).post_id = "60" := by decide
    rw [hid]
    rfl
  · rw [if_neg h, if_neg h]
    have hd : decide (4 < (1/120 : ℚ)) = false :=
      decide_eq_false (by norm_num)
    simp only [List.any_cons, List.any_nil, hd, Bool.false_or, Bool.or_false]
    rw [if_neg (by simp)]

theorem scenario_detect :
    detect_outlier_posts scenario120
      = [{ post_id := "60", outlier_traits := ["big5_openness"] }] := by
  rw [detect_outlier_posts]
  have hrw : scenario120.filterMap (outlierEntry scenario120)
      = ((List.range 120).map scenarioRow).filterMap
          (outlierEntry scenario120) := rfl
  rw [hrw, List.filterMap_map]
  have hcg := filterMap_congr' (List.range 120)
    (outlierEntry scenario120 ∘ scenarioRow)
    (fun i => if i = 59 then
        some ({ post_id := "60", outlier_traits := ["big5_openness"] }
          : OutlierRecord)
      else none)
    (fun i _ => scenario_entry i)
  rw [hcg]
  exact range_filterMap_single 120 59 (by omega) _

/-- C4.  **Outlier threshold and end-to-end scenario**
(`detect_outlier_posts`, `consistency_analysis.py:54-83`).  First conjunct:
on the 120-post table with identifiers "1".."120", all traits 3 except
`big5_openness = 5` on post "60", the analyzer reports exactly one outlier,
post "60", with `big5_openness` among (indeed equal to) its outlier traits.
Second conjunct: on every table, the reported outliers are exactly the
posts for which some trait column with positive std has squared z-score
above 4 against the column's global mean and sample std — i.e. |z| > 2. -/
theorem C4_outlier_detection :
    (detect_outlier_posts scenario120
        = [{ post_id := "60", outlier_traits := ["big5_openness"] }]) ∧
    (∀ df : List PRow,
      (detect_outlier_posts df).map OutlierRecord.post_id
        = (df.filter (fun r => decide (isOutlier df r))).map PRow.post_id) :=
  ⟨scenario_detect, detect_outlier_posts_ids⟩

/-! ## Archetype clustering engine (`content_archetypes.py`) -/

/-- A feature matrix, row-major (one inner list per post). -/
abbrev QMatrix : Type := List (List ℚ)

/-- `np.mean` of a column and population variance (`ddof=0`), as used by
sklearn's `StandardScaler`. -/
def popVar (xs : List ℚ) : ℚ :=
  (xs.map (fun x => (x - meanQ xs) ^ 2)).sum / xs.length

/-- `StandardScaler.mean_`: per-column means of the fitted matrix. -/
def colMeans (X : QMatrix) : List ℚ := X.transpose.map meanQ

/-- `StandardScaler.scale_`: per-column standard deviations (population,
`ddof=0`); sklearn replaces a zero scale by 1 to avoid dividing by zero
(`_handle_zeros_in_scale`).  `sqrtFn` models the floating square root. -/
def colScales (sqrtFn : ℚ → ℚ) (X : QMatrix) : List ℚ :=
  X.transpose.map (fun c =>
    let s := sqrtFn (popVar c)
    if s = 0 then 1 else s)

/-- Standardize one row: `(x - mean) / scale` per feature. -/
def scaleRow (μs σs : List ℚ) (row : List ℚ) : List ℚ :=
  (row.zip (μs.zip σs)).map (fun p => (p.1 - p.2.1) / p.2.2)

/-- `scaler.inverse_transform` of one cluster center:
`x * scale + mean` per feature. -/
def inverse_transform (μs σs : List ℚ) (row : List ℚ) : List ℚ :=
  (row.zip (μs.zip σs)).map (fun p => p.1 * p.2.2 + p.2.1)

/-- `prepare_clustering_data` (`content_archetypes.py:25-37`): standardize
the trait feature matrix (zero mean, unit variance per column). -/
def prepare_clustering_data (sqrtFn : ℚ → ℚ) (X : QMatrix) : QMatrix :=
  X.map (scaleRow (colMeans X) (colScales sqrtFn X))

/-- `np.argmax`: index of the first occurrence of the maximal value. -/
def argmaxAux (best : ℕ × ℚ) : List (ℕ × ℚ) → ℕ × ℚ
  | [] => best
  | p :: rest => argmaxAux (if p.2 > best.2 then p else best) rest

/-- Index of the first maximal element (`np.argmax`); 0 on the empty
list. -/
def argmaxFirst (l : List ℚ) : ℕ :=
  match l.enum with
  | [] => 0
  | p :: rest => (argmaxAux p rest).1

/-- `find_optimal_clusters` (`content_archetypes.py:39-55`).  `kmeansFit k
X` models `KMeans(n_clusters=k, random_state=42, n_init=10).fit_predict` /
`.cluster_centers_` — with the random seed fixed by the code, sklearn's
k-means is a deterministic pure function of `(k, X)`, which is exactly how
it is modelled here.  `sil` models `silhouette_score`, likewise a pure
function of its inputs.  Returns the k in `range(2, maxClusters+1)` whose
silhouette score is maximal (first maximum, as `np.argmax` does). -/
def find_optimal_clusters (kmeansFit : ℕ → QMatrix → List ℕ × QMatrix)
    (sil : QMatrix → List ℕ → ℚ) (X : QMatrix) (maxClusters : ℕ) :
    ℕ × List ℚ :=
  let kRange := (List.range (maxClusters - 1)).map (fun i => i + 2)
  let scores := kRange.map (fun k => sil X (kmeansFit k X).1)
  (kRange.getD (argmaxFirst scores) 2, scores)

/-- `perform_clustering` (`content_archetypes.py:57-63`): run k-means at
the chosen k, returning per-post cluster labels and cluster centers. -/
def perform_clustering (kmeansFit : ℕ → QMatrix → List ℕ × QMatrix)
    (X : QMatrix) (n_clusters : ℕ) : List ℕ × QMatrix :=
  kmeansFit n_clusters X

/-- Python's `str.title()` restricted to the space-separated lowercase
words produced by the trait-name cleanup (capitalize each word; the
inputs are already lowercase, so lowercasing the tail is a no-op). -/
def titleCase (s : String) : String :=
  String.intercalate " " ((s.splitOn " ").map (fun w => w.capitalize))

/-- `trait.replace('big5_', '').replace('partner_', '').replace('_', ' ')
.title()` (`content_archetypes.py:95,98`). -/
def cleanTrait (s : String) : String :=
  titleCase (((s.replace "big5_" "").replace "partner_" "").replace "_" " ")

/-- The heuristic naming cascade of `label_archetypes`
(`content_archetypes.py:77-136`): inverse-transform each center to
original trait units, collect the cleaned names of traits with center
value ≥ 4.0 ("high"), then run the first-match rule chain, falling back to
"{TopTrait} Focused" or a numbered archetype.  (The `low_traits` list,
center value ≤ 2.5, is computed by the code but never read by any rule,
so it is not materialized here.) -/
def label_archetypes (traitCols : List String) (μs σs : List ℚ)
    (centers : QMatrix) : List (String × String) :=
  centers.enum.map (fun p =>
    let center := inverse_transform μs σs p.2
    let profile := traitCols.zip center
    let high := (profile.filter (fun q => decide (4 ≤ q.2))).map
      (fun q => cleanTrait q.1)
    if "Strategic Thinking" ∈ high ∧ "Leadership" ∈ high then
      ("Strategic Leader",
       "High strategic thinking and leadership, drives vision and direction")
    else if "Collaboration" ∈ high ∧ "Agreeableness" ∈ high then
      ("Team Builder",
       "Collaborative and agreeable, focuses on team harmony and cooperation")
    else if "Openness" ∈ high ∧ "Risk Tolerance" ∈ high then
      ("Innovation Pioneer",
       "Open to new ideas with high risk tolerance, drives innovation")
    else if "Conscientiousness" ∈ high ∧ "Reliability" ∈ high then
      ("Reliable Executor",
       "Highly conscientious and reliable, ensures consistent delivery")
    else if "Extraversion" ∈ high ∧ "Leadership" ∈ high then
      ("Charismatic Influencer",
       "Extraverted leader, influences through charisma and presence")
    else if "Integrity Trust" ∈ high ∧ "Reliability" ∈ high then
      ("Trusted Advisor",
       "High integrity and reliability, serves as trusted counsel")
    else if "Adaptability" ∈ high ∧ "Openness" ∈ high then
      ("Adaptive Innovator",
       "Highly adaptable and open, thrives in changing environments")
    else
      match high with
      | primary :: _ =>
          (primary ++ " Focused",
           "Characterized by high " ++ primary.toLower)
      | [] => ("Archetype " ++ toString (p.1 + 1),
               "Balanced personality profile"))

/-- The archetype engine end to end: standardize, select k by silhouette,
cluster at the chosen k, and label the clusters. -/
def archetype_pipeline (kmeansFit : ℕ → QMatrix → List ℕ × QMatrix)
    (sil : QMatrix → List ℕ → ℚ) (sqrtFn : ℚ → ℚ)
    (traitCols : List String) (X : QMatrix) (maxClusters : ℕ) :
    ℕ × List ℕ × List (String × String) :=
  let Xs := prepare_clustering_data sqrtFn X
  let k := (find_optimal_clusters kmeansFit sil Xs maxClusters).1
  let fit := perform_clustering kmeansFit Xs k
  (k, fit.1,
   label_archetypes traitCols (colMeans X) (colScales sqrtFn X) fit.2)

/-- C5.  **Clustering determinism** (`content_archetypes.py:39-136`).  The
code fixes `random_state=42` everywhere, so sklearn's k-means and the
silhouette score are deterministic pure functions of their inputs — they
are modelled as such (`kmeansFit`, `sil`).  Under that model, two runs of
the full engine on identical input data and configuration produce
identical cluster-count selection, identical per-post assignments, and
identical archetype labels: the pipeline is a pure function, so the two
runs coincide definitionally, for every choice of the clustering
primitive, silhouette primitive and square-root model. -/
theorem C5_clustering_determinism
    (kmeansFit : ℕ → QMatrix → List ℕ × QMatrix)
    (sil : QMatrix → List ℕ → ℚ) (sqrtFn : ℚ → ℚ)
    (traitCols : List String) (X : QMatrix) (maxClusters : ℕ) :
    (archetype_pipeline kmeansFit sil sqrtFn traitCols X maxClusters).1
      = (archetype_pipeline kmeansFit sil sqrtFn traitCols X maxClusters).1 ∧
    (archetype_pipeline kmeansFit sil sqrtFn traitCols X maxClusters).2.1
      = (archetype_pipeline kmeansFit sil sqrtFn traitCols X maxClusters).2.1 ∧
    (archetype_pipeline kmeansFit sil sqrtFn traitCols X maxClusters).2.2
      = (archetype_pipeline kmeansFit sil sqrtFn traitCols X maxClusters).2.2 :=
  ⟨rfl, rfl, rfl⟩

/-! ## Risk prediction engine (`risk_assessment.py:26-85`) -/

/-- One row of the risk feature table: the feature vector (trait columns,
engagement rates, composite scores — a cell is `none` when the merged
table holds NaN there, e.g. a missing trait key or a 0/0 rate) and the
target flag. -/
structure RiskRow where
  features : List (Option ℚ)
  flag_self_promotion : Bool
  deriving DecidableEq

/-- The all-default row used as `getD` fallback. -/
def emptyRiskRow : RiskRow := { features := [], flag_self_promotion := false }

/-- Column `j` of the raw feature table. -/
def featCol (rows : List RiskRow) (j : ℕ) : List (Option ℚ) :=
  rows.map (fun r => r.features.getD j none)

/-- `Series.mean()` of one feature column: mean over the present cells,
`none` when every cell is missing (pandas gives NaN there). -/
def colMeanOpt (col : List (Option ℚ)) : Option ℚ :=
  let present := col.filterMap id
  if present.isEmpty then none else some (meanQ present)

/-- `prepare_risk_features` (`risk_assessment.py:26-39`):
`X = df[feature_cols]; X = X.fillna(X.mean())` — every missing cell is
replaced by the mean of its column over the WHOLE table (all rows, before
any train/test split).  A column with no present value at all keeps NaN in
pandas and makes sklearn's scaler raise; that case is outside every claim
and is modelled by the dead default 0. -/
def prepare_risk_features (rows : List RiskRow) : QMatrix :=
  rows.map (fun r =>
    r.features.enum.map (fun p =>
      p.2.getD ((colMeanOpt (featCol rows p.1)).getD 0)))

/-- `X_train = X.iloc[train_indices]`: the rows of the prepared matrix at
the split's train positions.  The fixed-seed stratified
`train_test_split(..., test_size=0.2, random_state=42, stratify=y)` is
deterministic; its output index set enters here as `trainIdx`. -/
def extractRows (X : QMatrix) (idx : List ℕ) : QMatrix :=
  idx.map (fun i => X.getD i [])

/-- `SelectKBest(f_classif, k=10).get_support(indices=True)`: the indices
of the 10 largest scores, in increasing index order — a deterministic pure
function of the score vector (ties resolved by `np.argsort`'s fixed
order; the exact tie-break does not affect any verified property). -/
def topKIndices (k : ℕ) (scores : List ℚ) : List ℕ :=
  ((scores.enum.mergeSort (fun a b => decide (b.2 ≤ a.2))).take k).map
      Prod.fst
    |>.mergeSort (fun a b => decide (a ≤ b))

/-- The training-fit artifacts of `build_self_promotion_predictor` that
claims C6 and C7 talk about: the scaler parameters
(`StandardScaler.mean_` / `.scale_`) and the selected feature indices. -/
structure PredictorFit where
  scaler_mean : List ℚ
  scaler_scale : List ℚ
  selected : List ℕ
  deriving DecidableEq

/-- `scaler.fit(X_train)` followed by
`SelectKBest(f_classif, k=10).fit(X_train_scaled, y_train)`
(`risk_assessment.py:49-57`): scaler statistics from the training rows
only, univariate scores (`score` models `f_classif`) from the scaled
training rows and training labels only. -/
def fit_scaler_and_selector (sqrtFn : ℚ → ℚ)
    (score : QMatrix → List Bool → List ℚ)
    (Xtr : QMatrix) (ytr : List Bool) : PredictorFit :=
  let μ := colMeans Xtr
  let σ := colScales sqrtFn Xtr
  let Xs := Xtr.map (scaleRow μ σ)
  { scaler_mean := μ
    scaler_scale := σ
    selected := topKIndices 10 (score Xs ytr) }

/-- The feature-preparation, split, scaling and selection stages of
`build_self_promotion_predictor` (`risk_assessment.py:41-57`). -/
def build_self_promotion_predictor (sqrtFn : ℚ → ℚ)
    (score : QMatrix → List Bool → List ℚ)
    (rows : List RiskRow) (trainIdx : List ℕ) : PredictorFit :=
  let X := prepare_risk_features rows
  let y := rows.map (fun r => r.flag_self_promotion)
  let Xtr := extractRows X trainIdx
  let ytr := trainIdx.map (fun i => y.getD i false)
  fit_scaler_and_selector sqrtFn score Xtr ytr

/-! ### C6 counterexample

The code's split is `train_test_split(X, y, test_size=0.2,
random_state=42, stratify=y)` (`risk_assessment.py:47`).  On a 10-row
input whose flag column has five true and five false rows this split is a
valid, realizable run: the least-populated class has 5 ≥ 2 members, the
held-out set has `ceil(0.2·10) = 2` rows and stratification allocates
exactly one per class.  So whatever index pair the fixed seed draws, the
train index list is a permutation of `range 10` minus one true-class index
`i < 5` and one false-class index `5 ≤ j < 10` — the shape captured by
`c6split` below.  The counterexample quantifies over every split of that
shape (so it covers the unknown seed's actual outcome) and exhibits, for
each, a dataset pair with identical flags, identical training rows and a
differing test row whose scaler means disagree: the training row's missing
cell is imputed with the FULL-table column mean (`X.fillna(X.mean())` runs
before the split), so the test row's value leaks into the scaler fit. -/

/-- The flag column of the counterexample tables: rows 0–4 true,
rows 5–9 false. -/
def c6y : List Bool :=
  [true, true, true, true, true, false, false, false, false, false]

/-- A true-class row other than `i`, guaranteed to be in the training
split when `i` is the held-out true-class row; it carries the missing
feature cell. -/
def c6naz (i : ℕ) : ℕ := if i = 0 then 1 else 0

/-- First table: every row has the single feature 2, except row
`c6naz i`, whose feature cell is missing (NaN). -/
def c6rowsA (i : ℕ) : List RiskRow :=
  (List.range 10).map (fun k =>
    { features := if k = c6naz i then [none] else [some 2]
      flag_self_promotion := decide (k < 5) })

/-- Second table: identical to `c6rowsA i` except at the held-out
false-class row `j`, where the feature is 82 instead of 2. -/
def c6rowsB (i j : ℕ) : List RiskRow :=
  (List.range 10).map (fun k =>
    { features := if k = c6naz i then [none]
        else if k = j then [some 82] else [some 2]
      flag_self_promotion := decide (k < 5) })

/-- The train index set of a stratified 8/2 split of 10 rows that holds
out rows `i` and `j`. -/
def c6split (i j : ℕ) : List ℕ :=
  (List.range 10).filter (fun k => decide (k ≠ i ∧ k ≠ j))

theorem range_getD_map {β : Type} (n k : ℕ) (f : ℕ → β) (d : β)
    (hk : k < n) : ((List.range n).map f).getD k d = f k := by
  rw [List.getD_eq_getElem?_getD, List.getElem?_map, List.getElem?_range hk]
  rfl

theorem filterMap_some_eq_map {α β : Type} (f : α → β) (l : List α) :
    l.filterMap (fun x => some (f x)) = l.map f := by
  induction l with
  | nil => rfl
  | cons a l ih => rw [List.filterMap_cons, List.map_cons, ih]

theorem range_filterMap_skip_pre (n m : ℕ) (hnm : n ≤ m) (g : ℕ → ℚ) :
    (List.range n).filterMap (fun k => if k = m then none else some (g k))
      = (List.range n).map g := by
  rw [filterMap_congr' _ _ (fun k => some (g k))
    (fun k hk => if_neg (by have := List.mem_range.1 hk; omega))]
  exact filterMap_some_eq_map g _

theorem range_filterMap_skip_sum (n m : ℕ) (hm : m < n) (g : ℕ → ℚ) :
    ((List.range n).filterMap
        (fun k => if k = m then none else some (g k))).sum
      = ((List.range n).map g).sum - g m := by
  induction n with
  | zero => omega
  | succ n ih =>
      rw [List.range_succ, List.filterMap_append, List.sum_append,
        List.map_append, List.sum_append]
      by_cases hmn : m = n
      · subst hmn
        rw [range_filterMap_skip_pre m m le_rfl]
        have hsuf : List.filterMap
            (fun k => if k = m then none else some (g k)) [m] = [] := by
          simp
        rw [hsuf]
        simp only [List.map_cons, List.map_nil, List.sum_cons, List.sum_nil]
        ring
      · have hm' : m < n := by omega
        have hsuf : List.filterMap
            (fun k => if k = m then none else some (g k)) [n] = [g n] := by
          simp only [List.filterMap_cons, List.filterMap_nil,
            if_neg (fun h : n = m => hmn h.symm)]
        rw [ih hm', hsuf]
        simp only [List.map_cons, List.map_nil, List.sum_cons, List.sum_nil]
        ring

theorem range_filterMap_skip_len (n m : ℕ) (hm : m < n) (g : ℕ → ℚ) :
    ((List.range n).filterMap
        (fun k => if k = m then none else some (g k))).length = n - 1 := by
  induction n with
  | zero => omega
  | succ n ih =>
      rw [List.range_succ, List.filterMap_append, List.length_append]
      by_cases hmn : m = n
      · subst hmn
        rw [range_filterMap_skip_pre m m le_rfl]
        have hsuf : List.filterMap
            (fun k => if k = m then none else some (g k)) [m] = [] := by
          simp
        rw [hsuf]
        simp
      · have hm' : m < n := by omega
        have hsuf : List.filterMap
            (fun k => if k = m then none else some (g k)) [n] = [g n] := by
          simp only [List.filterMap_cons, List.filterMap_nil,
            if_neg (fun h : n = m => hmn h.symm)]
        rw [ih hm', hsuf]
        simp only [List.length_cons, List.length_nil]
        omega

theorem getD_map_flag (rows : List RiskRow) (i : ℕ) :
    (rows.map (fun r => r.flag_self_promotion)).getD i false
      = (rows.getD i emptyRiskRow).flag_self_promotion := by
  rw [List.getD_eq_getElem?_getD, List.getD_eq_getElem?_getD,
    List.getElem?_map]
  cases rows[i]? <;> rfl

/-- On a row with no missing feature cell, imputation is the identity:
the prepared row is the raw feature vector, independent of every other
row of the table. -/
theorem prepare_complete (rows : List RiskRow) (i : ℕ)
    (hc : ∀ c ∈ (rows.getD i emptyRiskRow).features, c ≠ none) :
    (prepare_risk_features rows).getD i []
      = (rows.getD i emptyRiskRow).features.map (fun c => c.getD 0) := by
  rcases h : rows[i]? with _ | r
  · have h1 : (prepare_risk_features rows)[i]? = none := by
      rw [prepare_risk_features, List.getElem?_map, h]
      rfl
    have hrow : rows.getD i emptyRiskRow = emptyRiskRow := by
      rw [List.getD_eq_getElem?_getD, h]
      rfl
    rw [List.getD_eq_getElem?_getD, h1, hrow]
    rfl
  · have hrow : rows.getD i emptyRiskRow = r := by
      rw [List.getD_eq_getElem?_getD, h]
      rfl
    have h1 : (prepare_risk_features rows).getD i []
        = r.features.enum.map (fun p =>
            p.2.getD ((colMeanOpt (featCol rows p.1)).getD 0)) := by
      rw [List.getD_eq_getElem?_getD, prepare_risk_features,
        List.getElem?_map, h]
      rfl
    rw [hrow] at hc
    rw [h1, hrow]
    have h2 : r.features.enum.map (fun p =>
        p.2.getD ((colMeanOpt (featCol rows p.1)).getD 0))
        = r.features.enum.map (fun p => p.2.getD 0) := by
      apply List.map_congr_left
      intro p hp
      have hmem : p.2 ∈ r.features := List.snd_mem_of_mem_enumFrom hp
      rcases hv : p.2 with _ | v
      · exact absurd hv (hc p.2 hmem)
      · rfl
    have h3 : r.features.enum.map (fun p => (p.2 : Option ℚ).getD 0)
        = (r.features.enum.map Prod.snd).map (fun c => c.getD 0) := by
      rw [List.map_map]
      rfl
    rw [h2, h3, List.enum_map_snd]

/-- C6, amended.  **Risk engine no-leakage, as the code implements it**:
feature selection and scaling statistics depend only on the training-split
rows of the IMPUTED feature matrix.  Because `prepare_risk_features`
imputes with full-table column means before the split, test-split values
can reach the scaler through imputed training cells (see the
counterexample); but whenever the training rows contain no missing
values — so imputation leaves them untouched — perturbing test-split rows
arbitrarily changes neither the selected top-K features nor the scaler's
mean/scale parameters. -/
theorem C6_no_leakage_amended (sqrtFn : ℚ → ℚ)
    (score : QMatrix → List Bool → List ℚ)
    (rows1 rows2 : List RiskRow) (trainIdx : List ℕ)
    (hagree : ∀ i ∈ trainIdx,
      rows1.getD i emptyRiskRow = rows2.getD i emptyRiskRow)
    (hcomplete : ∀ i ∈ trainIdx,
      ∀ c ∈ (rows1.getD i emptyRiskRow).features, c ≠ none) :
    build_self_promotion_predictor sqrtFn score rows1 trainIdx
      = build_self_promotion_predictor sqrtFn score rows2 trainIdx := by
  have hX : extractRows (prepare_risk_features rows1) trainIdx
      = extractRows (prepare_risk_features rows2) trainIdx := by
    apply List.map_congr_left
    intro i hi
    have hc2 : ∀ c ∈ (rows2.getD i emptyRiskRow).features, c ≠ none := by
      rw [← hagree i hi]
      exact hcomplete i hi
    rw [prepare_complete rows1 i (hcomplete i hi),
      prepare_complete rows2 i hc2, hagree i hi]
  have hy : trainIdx.map (fun i =>
        (rows1.map (fun r => r.flag_self_promotion)).getD i false)
      = trainIdx.map (fun i =>
        (rows2.map (fun r => r.flag_self_promotion)).getD i false) := by
    apply List.map_congr_left
    intro i hi
    rw [getD_map_flag, getD_map_flag, hagree i hi]
  show fit_scaler_and_selector sqrtFn score
      (extractRows (prepare_risk_features rows1) trainIdx)
      (trainIdx.map (fun i =>
        (rows1.map (fun r => r.flag_self_promotion)).getD i false))
    = fit_scaler_and_selector sqrtFn score
      (extractRows (prepare_risk_features rows2) trainIdx)
      (trainIdx.map (fun i =>
        (rows2.map (fun r => r.flag_self_promotion)).getD i false))
  rw [hX, hy]

/-- Witness dataset for the amended no-leakage theorem: a realizable
10-row table (flags `c6y`: five true, five false, so the code's stratified
80/20 split succeeds) whose eight training rows — here the split holding
out rows 0 and 5, one per class — are complete (NaN-free). -/
def c6wrows1 : List RiskRow :=
  [{ features := [some 5, some 1], flag_self_promotion := true },
   { features := [some 1, some 4], flag_self_promotion := true },
   { features := [some 2, some 2], flag_self_promotion := true },
   { features := [some 3, some 3], flag_self_promotion := true },
   { features := [some 4, some 4], flag_self_promotion := true },
   { features := [some 9, some 9], flag_self_promotion := false },
   { features := [some 1, some 2], flag_self_promotion := false },
   { features := [some 2, some 1], flag_self_promotion := false },
   { features := [some 3, some 2], flag_self_promotion := false },
   { features := [some 4, some 1], flag_self_promotion := false }]

/-- Second witness dataset: identical flags and training rows, with both
held-out rows (0 and 5) perturbed arbitrarily, one even to NaN. -/
def c6wrows2 : List RiskRow :=
  [{ features := [some 50, none], flag_self_promotion := true },
   { features := [some 1, some 4], flag_self_promotion := true },
   { features := [some 2, some 2], flag_self_promotion := true },
   { features := [some 3, some 3], flag_self_promotion := true },
   { features := [some 4, some 4], flag_self_promotion := true },
   { features := [none, some 77], flag_self_promotion := false },
   { features := [some 1, some 2], flag_self_promotion := false },
   { features := [some 2, some 1], flag_self_promotion := false },
   { features := [some 3, some 2], flag_self_promotion := false },
   { features := [some 4, some 1], flag_self_promotion := false }]

theorem C6_no_leakage_amended_witness :
    build_self_promotion_predictor (fun q => q) (fun _ _ => [])
        c6wrows1 (c6split 0 5)
      = build_self_promotion_predictor (fun q => q) (fun _ _ => [])
        c6wrows2 (c6split 0 5) :=
  C6_no_leakage_amended (fun q => q) (fun _ _ => []) c6wrows1 c6wrows2
    (c6split 0 5) (by decide) (by decide)

/-- `LogisticRegression(random_state=42, max_iter=1000).fit`
(`risk_assessment.py:60-61`), modelled by sklearn's documented contract:
fitting raises `ValueError` when the target contains fewer than two
distinct classes ("This solver needs samples of at least 2 classes in the
data"), and otherwise produces a coefficient vector — the numeric
optimisation itself is abstracted by the `lrCoef` parameter, a pure
function of the training inputs. -/
def logisticRegressionFit (lrCoef : QMatrix → List Bool → List ℚ)
    (X : QMatrix) (y : List Bool) : Except String (List ℚ) :=
  if y.all (fun b => b) ∨ y.all (fun b => !b) then
    Except.error
      "This solver needs samples of at least 2 classes in the data"
  else
    Except.ok (lrCoef X y)

/-- `build_self_promotion_predictor` through the classifier fit
(`risk_assessment.py:41-85`): prepare features (full-table imputation),
take the training split, fit scaler and selector on it, restrict the
scaled training matrix to the selected features, and fit the logistic
regression.  An exception escaping the sklearn calls is an `Except.error`
here; the happy path returns the training-fit artifacts and the
coefficients. -/
def build_self_promotion_predictor_run (sqrtFn : ℚ → ℚ)
    (score : QMatrix → List Bool → List ℚ)
    (lrCoef : QMatrix → List Bool → List ℚ)
    (rows : List RiskRow) (trainIdx : List ℕ) :
    Except String (PredictorFit × List ℚ) :=
  let X := prepare_risk_features rows
  let y := rows.map (fun r => r.flag_self_promotion)
  let Xtr := extractRows X trainIdx
  let ytr := trainIdx.map (fun i => y.getD i false)
  let fit := fit_scaler_and_selector sqrtFn score Xtr ytr
  let Xs := Xtr.map (scaleRow fit.scaler_mean fit.scaler_scale)
  let Xsel := Xs.map (fun row => fit.selected.map (fun j => row.getD j 0))
  (logisticRegressionFit lrCoef Xsel ytr).map (fun coef => (fit, coef))

/-- A dataset whose target flag is true on every row. -/
def c7rows : List RiskRow :=
  [{ features := [some 1], flag_self_promotion := true },
   { features := [some 2], flag_self_promotion := true },
   { features := [some 3], flag_self_promotion := true },
   { features := [some 4], flag_self_promotion := true },
   { features := [some 5], flag_self_promotion := true }]

/-- C7, counterexample.  On a table whose `flag_self_promotion` is true on
every row (so the training split has a zero-variance target), the pipeline
raises — sklearn's `LogisticRegression.fit` rejects single-class data with
`ValueError` — instead of returning degenerate/NaN outputs. -/
theorem C7_counterexample :
    build_self_promotion_predictor_run (fun q => q) (fun _ _ => [])
        (fun _ _ => []) c7rows [0, 1, 2, 3]
      = Except.error
          "This solver needs samples of at least 2 classes in the data" :=
  rfl

/-- C7, amended.  Whenever the target flag has zero variance on the
training split (all-true or all-false), the risk prediction engine does
NOT return degenerate/NaN outputs: the classifier fit raises, and the
exception propagates out of `build_self_promotion_predictor`. -/
theorem C7_zero_variance_amended (sqrtFn : ℚ → ℚ)
    (score : QMatrix → List Bool → List ℚ)
    (lrCoef : QMatrix → List Bool → List ℚ)
    (rows : List RiskRow) (trainIdx : List ℕ)
    (hconst : (trainIdx.map (fun i =>
        (rows.map (fun r => r.flag_self_promotion)).getD i false)).all
          (fun b => b) = true
      ∨ (trainIdx.map (fun i =>
        (rows.map (fun r => r.flag_self_promotion)).getD i false)).all
          (fun b => !b) = true) :
    build_self_promotion_predictor_run sqrtFn score lrCoef rows trainIdx
      = Except.error
          "This solver needs samples of at least 2 classes in the data" := by
  show (logisticRegressionFit lrCoef _ _).map _ = _
  rw [logisticRegressionFit, if_pos hconst]
  rfl

theorem C7_zero_variance_amended_witness :
    build_self_promotion_predictor_run (fun q => q) (fun _ _ => [])
        (fun _ _ => []) c7rows [1, 2, 3, 4]
      = Except.error
          "This solver needs samples of at least 2 classes in the data" :=
  C7_zero_variance_amended (fun q => q) (fun _ _ => []) (fun _ _ => [])
    c7rows [1, 2, 3, 4] (Or.inl (by decide))

theorem sum_map_ite_count (l : List ℕ) (m : ℕ) (a b : ℚ)
    (h : l.count m = 1) :
    (l.map (fun k => if k = m then a else b)).sum
      = b * ((l.length : ℚ) - 1) + a := by
  induction l with
  | nil => simp at h
  | cons k l ih =>
      rw [List.count_cons] at h
      by_cases hkm : k = m
      · have hz : l.count m = 0 := by
          rw [if_pos (by simp [hkm] : (k == m) = true)] at h
          omega
        have hnot : m ∉ l := List.count_eq_zero.1 hz
        have hmap : l.map (fun x => if x = m then a else b)
            = l.map (fun _ => b) :=
          List.map_congr_left (fun x hx =>
            if_neg (fun he => hnot (by rw [← he]; exact hx)))
        rw [List.map_cons, List.sum_cons, if_pos hkm, hmap, List.map_const',
          List.sum_replicate, nsmul_eq_mul, List.length_cons]
        push_cast
        ring
      · have h1 : l.count m = 1 := by
          rw [if_neg (by simp [hkm] : ¬ (k == m) = true)] at h
          omega
        rw [List.map_cons, List.sum_cons, if_neg hkm, ih h1,
          List.length_cons]
        push_cast
        ring

theorem transpose_go_one (x : ℚ) (c : List ℚ) :
    List.transpose.go [x] #[c] = #[x :: c] := rfl

theorem foldr_go_singletons (x : ℚ) (l : List ℚ) :
    ((x :: l).map (fun v => [v])).foldr List.transpose.go #[] = #[x :: l] := by
  induction l generalizing x with
  | nil => rfl
  | cons y l ih =>
      have hstep : ((x :: y :: l).map (fun v => [v])).foldr
          List.transpose.go #[]
          = List.transpose.go [x]
              (((y :: l).map (fun v => [v])).foldr List.transpose.go #[]) :=
        rfl
      rw [hstep, ih y]
      exact transpose_go_one x (y :: l)

/-- Transpose of a single-column matrix: the one column, as a row. -/
theorem transpose_singletons (x : ℚ) (l : List ℚ) :
    ((x :: l).map (fun v => [v])).transpose = [x :: l] := by
  show (((x :: l).map (fun v => [v])).foldr List.transpose.go #[]).toList
      = [x :: l]
  rw [foldr_go_singletons]

theorem colMeans_singletons (x : ℚ) (l : List ℚ) :
    colMeans ((x :: l).map (fun v => [v])) = [meanQ (x :: l)] := by
  rw [colMeans, transpose_singletons]
  rfl

theorem c6naz_lt (i : ℕ) : c6naz i < 10 := by
  rw [c6naz]
  split <;> omega

theorem c6colA (i : ℕ) : colMeanOpt (featCol (c6rowsA i) 0) = some 2 := by
  have hcol : featCol (c6rowsA i) 0
      = (List.range 10).map
          (fun k => if k = c6naz i then none else some (2:ℚ)) := by
    have h0 : featCol (c6rowsA i) 0
        = ((List.range 10).map (fun k =>
            ({ features := if k = c6naz i then [none] else [some 2]
               flag_self_promotion := decide (k < 5) } : RiskRow))).map
            (fun r => r.features.getD 0 none) := rfl
    rw [h0, List.map_map]
    apply List.map_congr_left
    intro k _
    by_cases hk : k = c6naz i <;> simp [hk]
  rw [hcol, colMeanOpt]
  have hfm : List.filterMap id ((List.range 10).map
      (fun k => if k = c6naz i then none else some ((fun _ => (2:ℚ)) k)))
      = (List.range 10).filterMap
          (fun k => if k = c6naz i then none else some ((fun _ => (2:ℚ)) k)) := by
    rw [List.filterMap_map]
    rfl
  have hlen := range_filterMap_skip_len 10 (c6naz i) (c6naz_lt i)
    (fun _ => (2:ℚ))
  have hsum := range_filterMap_skip_sum 10 (c6naz i) (c6naz_lt i)
    (fun _ => (2:ℚ))
  rw [sum_map_range_const 10 _ 2 (fun _ _ => rfl)] at hsum
  simp only [hfm]
  have hne : ((List.range 10).filterMap
      (fun k => if k = c6naz i then none else some ((fun _ => (2:ℚ)) k))).isEmpty
      = false := by
    cases hP : ((List.range 10).filterMap
        (fun k => if k = c6naz i then none else some ((fun _ => (2:ℚ)) k))).isEmpty
    · rfl
    · exfalso
      rw [List.isEmpty_iff] at hP
      rw [hP] at hlen
      simp at hlen
  rw [hne]
  simp only [Bool.false_eq_true, if_false]
  congr 1
  rw [meanQ, hsum, hlen]
  norm_num

theorem c6colB (i j : ℕ) (hj5 : 5 ≤ j) (hj10 : j < 10) :
    colMeanOpt (featCol (c6rowsB i j) 0) = some (98/9) := by
  have hnaz_ne_j : c6naz i ≠ j := by
    rw [c6naz]
    split <;> omega
  have hcol : featCol (c6rowsB i j) 0
      = (List.range 10).map
          (fun k => if k = c6naz i then none
            else some (if k = j then (82:ℚ) else 2)) := by
    have h0 : featCol (c6rowsB i j) 0
        = ((List.range 10).map (fun k =>
            ({ features := if k = c6naz i then [none]
                 else if k = j then [some 82] else [some 2]
               flag_self_promotion := decide (k < 5) } : RiskRow))).map
            (fun r => r.features.getD 0 none) := rfl
    rw [h0, List.map_map]
    apply List.map_congr_left
    intro k _
    show ((if k = c6naz i then [none]
        else if k = j then [some 82] else [some (2:ℚ)]) :
          List (Option ℚ)).getD 0 none
      = if k = c6naz i then none else some (if k = j then (82:ℚ) else 2)
    by_cases hk : k = c6naz i
    · rw [if_pos hk, if_pos hk]
      rfl
    · rw [if_neg hk, if_neg hk]
      by_cases hkj : k = j
      · rw [if_pos hkj, if_pos hkj]
        rfl
      · rw [if_neg hkj, if_neg hkj]
        rfl
  rw [hcol, colMeanOpt]
  have hfm : List.filterMap id ((List.range 10).map
      (fun k => if k = c6naz i then none
        else some ((fun k => if k = j then (82:ℚ) else 2) k)))
      = (List.range 10).filterMap
          (fun k => if k = c6naz i then none
            else some ((fun k => if k = j then (82:ℚ) else 2) k)) := by
    rw [List.filterMap_map]
    rfl
  have hlen := range_filterMap_skip_len 10 (c6naz i) (c6naz_lt i)
    (fun k => if k = j then (82:ℚ) else 2)
  have hsum := range_filterMap_skip_sum 10 (c6naz i) (c6naz_lt i)
    (fun k => if k = j then (82:ℚ) else 2)
  rw [sum_map_range_ite 10 j hj10 82 2, if_neg hnaz_ne_j] at hsum
  simp only [hfm]
  have hne : ((List.range 10).filterMap
      (fun k => if k = c6naz i then none
        else some ((fun k => if k = j then (82:ℚ) else 2) k))).isEmpty
      = false := by
    cases hP : ((List.range 10).filterMap
        (fun k => if k = c6naz i then none
          else some ((fun k => if k = j then (82:ℚ) else 2) k))).isEmpty
    · rfl
    · exfalso
      rw [List.isEmpty_iff] at hP
      rw [hP] at hlen
      simp at hlen
  rw [hne]
  simp only [Bool.false_eq_true, if_false]
  congr 1
  rw [meanQ, hsum, hlen]
  norm_num

theorem c6prepA (i : ℕ) :
    prepare_risk_features (c6rowsA i)
      = (List.range 10).map (fun _ => [(2:ℚ)]) := by
  have h0 : prepare_risk_features (c6rowsA i)
      = ((List.range 10).map (fun k =>
          ({ features := if k = c6naz i then [none] else [some 2]
             flag_self_promotion := decide (k < 5) } : RiskRow))).map
          (fun r => r.features.enum.map (fun p =>
            p.2.getD ((colMeanOpt (featCol (c6rowsA i) p.1)).getD 0))) := rfl
  rw [h0, List.map_map]
  apply List.map_congr_left
  intro k _
  show ((if k = c6naz i then [none] else [some (2:ℚ)]) :
        List (Option ℚ)).enum.map (fun p =>
      p.2.getD ((colMeanOpt (featCol (c6rowsA i) p.1)).getD 0)) = [(2:ℚ)]
  by_cases hk : k = c6naz i
  · rw [if_pos hk]
    show [Option.getD none ((colMeanOpt (featCol (c6rowsA i) 0)).getD 0)]
      = [(2:ℚ)]
    rw [c6colA i]
    rfl
  · rw [if_neg hk]
    rfl

theorem c6prepB (i j : ℕ) (hj5 : 5 ≤ j) (hj10 : j < 10) :
    prepare_risk_features (c6rowsB i j)
      = (List.range 10).map (fun k =>
          [if k = c6naz i then (98/9 : ℚ)
           else if k = j then 82 else 2]) := by
  have h0 : prepare_risk_features (c6rowsB i j)
      = ((List.range 10).map (fun k =>
          ({ features := if k = c6naz i then [none]
               else if k = j then [some 82] else [some 2]
             flag_self_promotion := decide (k < 5) } : RiskRow))).map
          (fun r => r.features.enum.map (fun p =>
            p.2.getD ((colMeanOpt (featCol (c6rowsB i j) p.1)).getD 0))) := rfl
  rw [h0, List.map_map]
  apply List.map_congr_left
  intro k _
  show ((if k = c6naz i then [none]
      else if k = j then [some 82] else [some (2:ℚ)]) :
        List (Option ℚ)).enum.map (fun p =>
      p.2.getD ((colMeanOpt (featCol (c6rowsB i j) p.1)).getD 0))
    = [if k = c6naz i then (98/9 : ℚ) else if k = j then 82 else 2]
  by_cases hk : k = c6naz i
  · rw [if_pos hk, if_pos hk]
    show [Option.getD none ((colMeanOpt (featCol (c6rowsB i j) 0)).getD 0)]
      = [(98/9 : ℚ)]
    rw [c6colB i j hj5 hj10]
    rfl
  · rw [if_neg hk, if_neg hk]
    by_cases hkj : k = j
    · rw [if_pos hkj, if_pos hkj]
      rfl
    · rw [if_neg hkj, if_neg hkj]
      rfl

/-- C6, counterexample.  On 10-row tables with the flag column `c6y`
(five true, five false rows), the code's fixed-seed stratified 80/20 split
is a valid run and must hold out exactly one true-class row `i < 5` and
one false-class row `5 ≤ j < 10`; the theorem shows that NO train split of
that shape satisfies the claimed no-leakage property — so in particular
the claim fails at the split the seed actually draws.  For each such
split, `c6rowsA i` and `c6rowsB i j` have identical flags, agree on every
training row, differ only at the held-out row `j`, and yet produce
different scaler means: row `c6naz i`'s missing cell is imputed with the
full-table column mean (2 versus 98/9), which reaches the scaler fit. -/
theorem C6_counterexample :
    ¬ ∃ trainIdx : List ℕ,
      (∃ i j, i < 5 ∧ 5 ≤ j ∧ j < 10 ∧ trainIdx.Perm (c6split i j)) ∧
      (∀ rows1 rows2 : List RiskRow,
        rows1.map (fun r => r.flag_self_promotion) = c6y →
        rows2.map (fun r => r.flag_self_promotion) = c6y →
        (∀ k ∈ trainIdx,
          rows1.getD k emptyRiskRow = rows2.getD k emptyRiskRow) →
        (build_self_promotion_predictor (fun q => q) (fun _ _ => [])
            rows1 trainIdx).scaler_mean
          = (build_self_promotion_predictor (fun q => q) (fun _ _ => [])
            rows2 trainIdx).scaler_mean) := by
  rintro ⟨tIdx, ⟨i, j, hi, hj5, hj10, hperm⟩, hall⟩
  have hmem10 : ∀ k ∈ tIdx, k < 10 ∧ k ≠ i ∧ k ≠ j := by
    intro k hk
    have hk' : k ∈ c6split i j := hperm.mem_iff.1 hk
    rw [c6split, List.mem_filter] at hk'
    exact ⟨List.mem_range.1 hk'.1, of_decide_eq_true hk'.2⟩
  have hnaz_ne_i : c6naz i ≠ i := by
    rw [c6naz]
    split <;> omega
  have hnaz_ne_j : c6naz i ≠ j := by
    rw [c6naz]
    split <;> omega
  have hnaz_mem_split : c6naz i ∈ c6split i j := by
    rw [c6split, List.mem_filter]
    exact ⟨List.mem_range.2 (c6naz_lt i),
      decide_eq_true ⟨hnaz_ne_i, hnaz_ne_j⟩⟩
  have hnaz_mem : c6naz i ∈ tIdx := hperm.mem_iff.2 hnaz_mem_split
  have hcount : tIdx.count (c6naz i) = 1 := by
    rw [hperm.count_eq]
    exact List.count_eq_one_of_mem ((List.nodup_range 10).filter _)
      hnaz_mem_split
  have htne : tIdx ≠ [] := List.ne_nil_of_mem hnaz_mem
  have hyA : (c6rowsA i).map (fun r => r.flag_self_promotion) = c6y := by
    have h0 : (c6rowsA i).map (fun r => r.flag_self_promotion)
        = (List.range 10).map (fun k => decide (k < 5)) := by
      rw [c6rowsA, List.map_map]
      rfl
    rw [h0]
    rfl
  have hyB : (c6rowsB i j).map (fun r => r.flag_self_promotion) = c6y := by
    have h0 : (c6rowsB i j).map (fun r => r.flag_self_promotion)
        = (List.range 10).map (fun k => decide (k < 5)) := by
      rw [c6rowsB, List.map_map]
      rfl
    rw [h0]
    rfl
  have hagree : ∀ k ∈ tIdx,
      (c6rowsA i).getD k emptyRiskRow = (c6rowsB i j).getD k emptyRiskRow := by
    intro k hk
    obtain ⟨hk10, _, hkj⟩ := hmem10 k hk
    rw [c6rowsA, c6rowsB, range_getD_map _ _ _ _ hk10,
      range_getD_map _ _ _ _ hk10]
    have hfeat : (if k = c6naz i then [none] else [some (2:ℚ)])
        = (if k = c6naz i then [none]
           else if k = j then [some 82] else [some (2:ℚ)]) := by
      by_cases hkn : k = c6naz i
      · rw [if_pos hkn, if_pos hkn]
      · rw [if_neg hkn, if_neg hkn, if_neg hkj]
    rw [hfeat]
  have hmean := hall (c6rowsA i) (c6rowsB i j) hyA hyB hagree
  have hbA : (build_self_promotion_predictor (fun q => q) (fun _ _ => [])
      (c6rowsA i) tIdx).scaler_mean
      = colMeans (extractRows (prepare_risk_features (c6rowsA i)) tIdx) := rfl
  have hbB : (build_self_promotion_predictor (fun q => q) (fun _ _ => [])
      (c6rowsB i j) tIdx).scaler_mean
      = colMeans (extractRows (prepare_risk_features (c6rowsB i j)) tIdx) := rfl
  rw [hbA, hbB] at hmean
  have hXA : extractRows (prepare_risk_features (c6rowsA i)) tIdx
      = (tIdx.map (fun _ => (2:ℚ))).map (fun v => [v]) := by
    rw [extractRows, c6prepA i, List.map_map]
    apply List.map_congr_left
    intro k hk
    rw [range_getD_map _ _ _ _ (hmem10 k hk).1]
    rfl
  have hXB : extractRows (prepare_risk_features (c6rowsB i j)) tIdx
      = (tIdx.map (fun k => if k = c6naz i then (98/9 : ℚ) else 2)).map
          (fun v => [v]) := by
    rw [extractRows, c6prepB i j hj5 hj10, List.map_map]
    apply List.map_congr_left
    intro k hk
    obtain ⟨hk10, _, hkj⟩ := hmem10 k hk
    rw [range_getD_map _ _ _ _ hk10]
    show [if k = c6naz i then (98/9:ℚ) else if k = j then 82 else 2]
      = [if k = c6naz i then (98/9:ℚ) else 2]
    by_cases hkn : k = c6naz i
    · rw [if_pos hkn, if_pos hkn]
    · rw [if_neg hkn, if_neg hkn, if_neg hkj]
  rw [hXA, hXB] at hmean
  obtain ⟨t0, trest, rfl⟩ := List.exists_cons_of_ne_nil htne
  have hconsA : (t0 :: trest).map (fun _ => (2:ℚ))
      = (2:ℚ) :: trest.map (fun _ => (2:ℚ)) := rfl
  have hconsB : (t0 :: trest).map
      (fun k => if k = c6naz i then (98/9:ℚ) else 2)
      = (if t0 = c6naz i then (98/9:ℚ) else 2) ::
          trest.map (fun k => if k = c6naz i then (98/9:ℚ) else 2) := rfl
  rw [hconsA, hconsB, colMeans_singletons, colMeans_singletons] at hmean
  have hA : meanQ ((2:ℚ) :: trest.map (fun _ => (2:ℚ))) = 2 := by
    have hrep : (2:ℚ) :: trest.map (fun _ => (2:ℚ))
        = List.replicate (trest.length + 1) 2 := by
      rw [List.map_const']
      rfl
    rw [hrep, meanQ_replicate _ 2 (by omega)]
  have hsumB := sum_map_ite_count (t0 :: trest) (c6naz i) (98/9) 2 hcount
  have hB : meanQ ((if t0 = c6naz i then (98/9:ℚ) else 2) ::
      trest.map (fun k => if k = c6naz i then (98/9:ℚ) else 2))
      = (2 * (((t0 :: trest).length : ℚ) - 1) + 98/9)
          / ((t0 :: trest).length : ℚ) := by
    have hlist : (if t0 = c6naz i then (98/9:ℚ) else 2) ::
        trest.map (fun k => if k = c6naz i then (98/9:ℚ) else 2)
        = (t0 :: trest).map (fun k => if k = c6naz i then (98/9:ℚ) else 2) :=
      rfl
    rw [hlist, meanQ, hsumB, List.length_map]
  rw [hA, hB] at hmean
  have hmean' : (2:ℚ)
      = (2 * (((t0 :: trest).length : ℚ) - 1) + 98/9)
          / ((t0 :: trest).length : ℚ) := by
    simpa using hmean
  have hn : (0:ℚ) < ((t0 :: trest).length : ℚ) := by
    rw [List.length_cons]
    push_cast
    positivity
  rw [eq_div_iff (ne_of_gt hn)] at hmean'
  have hcontra : (98:ℚ)/9 = 2 := by linarith
  norm_num at hcontra
